import Mathlib

/-!
Verification development for the `next-navigation-progress` repository
(`src/src/index.ts`, the `useNavigationProgress` React hook).

Shallow-embedding conventions, stated once here:

* JavaScript numbers are modeled by `JSNum`: an extended rational with NaN and
  signed infinities.  Weights, percentages and clock readings (`Date.now()`)
  are rationals; `Math.round` is round-half-up (`⌊q + 1/2⌋`), exactly the
  JS semantics on rationals.
* The WHATWG `URL` platform constructor, which the source invokes via
  `new URL(url)` / `new URL(url, base)`, is not part of the repository; it is
  modeled by `parseAbs` / `parseRel` / `jsURL`, restricted to the URL shapes
  the classifier claims exercise: scheme and host are lowercased, userinfo,
  ports, percent-decoding and dot-segment normalization are not modeled, and
  a special-scheme URL (http, https, ...) must carry `//` and a nonempty
  well-formed host to parse.  A parse failure models the constructor throwing.
* React state cells (`useState`, `useRef`) become fields of explicit state
  records (`UpdState` for the debounce/RAF scheduler, `Sys` for the session
  state machine); the `setTimeout(..., 0)` deferrals that exist purely to
  dodge `useInsertionEffect` conflicts are collapsed into the commit they
  defer.  `isUnmounted` is `false` throughout (mounted tracker).
* Timer-driven behavior is modeled by explicit event sequences whose times
  come from the source's literal constants (10 ms `route_change` timer,
  16 ms `component_mount` timer, `timeout` default 8000, 300 ms finish grace).
-/

/-! ### JavaScript number model -/

/-- A JavaScript number: NaN, a signed infinity (`inf true` is `+∞`),
or a finite value modeled as a rational. -/
inductive JSNum where
  | nan : JSNum
  | inf : Bool → JSNum
  | num : ℚ → JSNum
deriving DecidableEq, Repr

/-- JS division of two finite numbers: `a / 0` is NaN when `a = 0` and a
signed infinity otherwise; ordinary rational division when `b ≠ 0`. -/
def jsDiv (a b : ℚ) : JSNum :=
  if b = 0 then (if a = 0 then JSNum.nan else JSNum.inf (decide (0 < a)))
  else JSNum.num (a / b)

/-- Multiplication by the positive constant 100, extended to NaN/∞. -/
def jsMul100 : JSNum → JSNum
  | JSNum.nan => JSNum.nan
  | JSNum.inf s => JSNum.inf s
  | JSNum.num q => JSNum.num (q * 100)

/-- `Math.round`: round half up (toward `+∞`); NaN and infinities are fixed. -/
def jsRound : JSNum → JSNum
  | JSNum.nan => JSNum.nan
  | JSNum.inf s => JSNum.inf s
  | JSNum.num q => JSNum.num ((⌊q + 1/2⌋ : ℤ) : ℚ)

/-- `Math.min(x, 100)`: NaN propagates, `+∞` clamps to 100, `-∞` stays. -/
def jsMin100 : JSNum → JSNum
  | JSNum.nan => JSNum.nan
  | JSNum.inf true => JSNum.num 100
  | JSNum.inf false => JSNum.inf false
  | JSNum.num q => JSNum.num (min q 100)

/-! ### Step registry (`NavigationStep`, `stepsRef`) -/

/-- `NavigationStep` from the source: a named, weighted step with a completion
flag and an optional completion timestamp. -/
structure NavigationStep where
  name : String
  weight : ℚ
  completed : Bool
  timestamp : Option ℚ := none
deriving DecidableEq, Repr

/-- An entry of the `steps` option template (`{ name, weight }`). -/
structure StepTemplate where
  name : String
  weight : ℚ
deriving DecidableEq, Repr

/-- `DEFAULT_STEPS` from the source. -/
def DEFAULT_STEPS : List StepTemplate :=
  [⟨"route_change", 20⟩, ⟨"component_mount", 30⟩,
   ⟨"hydration", 25⟩, ⟨"resources_load", 25⟩]

/-- The steps-initialization effect: `steps.map(step => ({...step, completed: false}))`
(timestamp absent). -/
def initSteps (template : List StepTemplate) : List NavigationStep :=
  template.map fun st => { name := st.name, weight := st.weight, completed := false }

/-- `markStepComplete` body acting on the registry: find the first step named
`stepName`; if it exists and is not completed, set `completed := true` and
`timestamp := now`.  The second component records whether the guarded branch
was taken, i.e. whether the source goes on to call `updateProgress()`
(the source function itself returns `void`; see `markStepCompleteRet`). -/
def markStepComplete (now : ℚ) : List NavigationStep → String → List NavigationStep × Bool
  | [], _ => ([], false)
  | s :: rest, stepName =>
    if s.name = stepName then
      if s.completed then (s :: rest, false)
      else ({ s with completed := true, timestamp := some now } :: rest, true)
    else
      let r := markStepComplete now rest stepName
      (s :: r.1, r.2)

/-- The return value of the source `markStepComplete`: its declared type is
`(stepName: string) => void` and every path returns `undefined`, modeled as
the unique value of `Unit`. -/
def markStepCompleteRet (_now : ℚ) (_reg : List NavigationStep) (_stepName : String) : Unit := ()

/-- JS `step.timestamp || Date.now()`: `undefined` and the falsy number `0`
are replaced by `now`; any other existing timestamp is kept. -/
def jsOrTimestamp : Option ℚ → ℚ → ℚ
  | some t, now => if t = 0 then now else t
  | none, now => now

/-- The registry mutation performed by `finish`:
`steps.forEach(step => { step.completed = true; step.timestamp = step.timestamp || Date.now(); })`. -/
def completeAll (now : ℚ) (reg : List NavigationStep) : List NavigationStep :=
  reg.map fun s => { s with completed := true, timestamp := some (jsOrTimestamp s.timestamp now) }

/-- `totalWeight` from `updateProgress`:
`stepsRef.current.reduce((sum, step) => sum + step.weight, 0)`. -/
def totalWeight (reg : List NavigationStep) : ℚ :=
  reg.foldl (fun sum step => sum + step.weight) 0

/-- `completedWeight` from `updateProgress`:
`stepsRef.current.filter(step => step.completed).reduce((sum, step) => sum + step.weight, 0)`. -/
def completedWeight (reg : List NavigationStep) : ℚ :=
  (reg.filter fun step => step.completed).foldl (fun sum step => sum + step.weight) 0

/-- `newProgress` from `updateProgress`:
`Math.min(Math.round((completedWeight / totalWeight) * 100), 100)`, in JS
number semantics (no division-by-zero guard in the source). -/
def computeNewProgress (reg : List NavigationStep) : JSNum :=
  jsMin100 (jsRound (jsMul100 (jsDiv (completedWeight reg) (totalWeight reg))))

/-- Modelled from the spec: `percentage = min(round(completedWeight / totalWeight * 100), 100)`
with round-half-up rounding, as plain rational arithmetic.  This is the
spec-side formula the code-side `computeNewProgress` is compared against. -/
def specPercentage (completed total : ℚ) : ℚ :=
  min ((⌊completed / total * 100 + 1/2⌋ : ℤ) : ℚ) 100

/-! ### URL platform model and navigation classifier -/

/-- A parsed URL record: the fields of a WHATWG `URL` object the source reads.
`noAuthority` marks non-special schemes (`tel:`, `mailto:`, ...) whose body is
an opaque path with no `//authority` part. -/
structure URLRec where
  scheme : String
  hostname : String
  pathname : String
  search : String
  hash : String
  noAuthority : Bool
deriving DecidableEq, Repr

/-- Allowed characters of a URL scheme. -/
def isSchemeChar (c : Char) : Bool :=
  c.isAlphanum || c = '+' || c = '-' || c = '.'

/-- Characters the host model accepts; anything else makes the URL unparseable
(models the constructor throwing on a malformed host). -/
def isHostChar (c : Char) : Bool :=
  c.isAlphanum || c = '-' || c = '.' || c = '_'

/-- The WHATWG special schemes, which require an authority. -/
def specialSchemes : List String := ["http", "https", "ws", "wss", "ftp", "file"]

/-- Does the character list start with a syntactically valid `scheme:`? -/
def hasScheme (cs : List Char) : Bool :=
  let sch := cs.takeWhile (fun c => c != ':')
  let rest := cs.dropWhile (fun c => c != ':')
  !rest.isEmpty && !sch.isEmpty &&
    (match sch with | c :: _ => c.isAlpha | [] => false) && sch.all isSchemeChar

/-- Modelled platform behavior: parse an absolute URL (`new URL(s)` with no
base).  Special schemes need `//` plus a nonempty well-formed host; an empty
pathname becomes `/`; `search`/`hash` keep their `?`/`#` delimiters.
Non-special schemes get an opaque path.  `none` models a thrown `TypeError`. -/
def parseAbsCore (cs : List Char) : Option URLRec :=
  let sch := cs.takeWhile (fun c => c != ':')
  let rest := cs.dropWhile (fun c => c != ':')
  match rest with
  | [] => none
  | _ :: afterColon =>
    if !hasScheme cs then none
    else
      let scheme := String.mk (sch.map Char.toLower)
      if specialSchemes.contains scheme then
        match afterColon with
        | '/' :: '/' :: rest2 =>
          let hostCs := rest2.takeWhile (fun c => c != '/' && c != '?' && c != '#')
          let rest3 := rest2.dropWhile (fun c => c != '/' && c != '?' && c != '#')
          if hostCs.isEmpty then none
          else if !hostCs.all isHostChar then none
          else
            let pathCs := rest3.takeWhile (fun c => c != '?' && c != '#')
            let rest4 := rest3.dropWhile (fun c => c != '?' && c != '#')
            some { scheme := scheme
                   hostname := String.mk (hostCs.map Char.toLower)
                   pathname := if pathCs.isEmpty then "/" else String.mk pathCs
                   search := String.mk (rest4.takeWhile (fun c => c != '#'))
                   hash := String.mk (rest4.dropWhile (fun c => c != '#'))
                   noAuthority := false }
        | _ => none
      else
        let pathCs := afterColon.takeWhile (fun c => c != '?' && c != '#')
        let rest2 := afterColon.dropWhile (fun c => c != '?' && c != '#')
        some { scheme := scheme
               hostname := ""
               pathname := String.mk pathCs
               search := String.mk (rest2.takeWhile (fun c => c != '#'))
               hash := String.mk (rest2.dropWhile (fun c => c != '#'))
               noAuthority := true }

/-- Parse an absolute URL string. -/
def parseAbs (s : String) : Option URLRec :=
  parseAbsCore s.toList

/-- Serialize back to `href`.  Userinfo, ports and re-encoding are outside
the model, so this is the plain concatenation of the parsed fields. -/
def URLRec.href (u : URLRec) : String :=
  if u.noAuthority then u.scheme ++ ":" ++ u.pathname ++ u.search ++ u.hash
  else u.scheme ++ "://" ++ u.hostname ++ u.pathname ++ u.search ++ u.hash

/-- The directory part of a path: everything up to and including the last `/`. -/
def dirOf (path : List Char) : List Char :=
  (path.reverse.dropWhile (fun c => c != '/')).reverse

/-- Modelled platform behavior: resolve a relative reference against a parsed
base (`new URL(url, base)` when `url` has no scheme of its own): handles
protocol-relative `//`, path-absolute `/`, query-only `?`, fragment-only `#`,
the empty reference, and plain relative paths (dot segments unnormalized). -/
def parseRel (base : URLRec) (cs : List Char) : Option URLRec :=
  if base.noAuthority then none
  else
    match cs with
    | '/' :: '/' :: _ => parseAbsCore (base.scheme.toList ++ ':' :: cs)
    | '/' :: _ =>
      let pathCs := cs.takeWhile (fun c => c != '?' && c != '#')
      let rest := cs.dropWhile (fun c => c != '?' && c != '#')
      some { base with pathname := String.mk pathCs
                       search := String.mk (rest.takeWhile (fun c => c != '#'))
                       hash := String.mk (rest.dropWhile (fun c => c != '#')) }
    | '?' :: _ =>
      some { base with search := String.mk (cs.takeWhile (fun c => c != '#'))
                       hash := String.mk (cs.dropWhile (fun c => c != '#')) }
    | '#' :: _ => some { base with hash := String.mk cs }
    | [] => some { base with hash := "" }
    | _ =>
      let pathCs := cs.takeWhile (fun c => c != '?' && c != '#')
      let rest := cs.dropWhile (fun c => c != '?' && c != '#')
      some { base with pathname := String.mk (dirOf base.pathname.toList ++ pathCs)
                       search := String.mk (rest.takeWhile (fun c => c != '#'))
                       hash := String.mk (rest.dropWhile (fun c => c != '#')) }

/-- Modelled platform behavior: `new URL(url, base)`.  A URL that carries its
own scheme is parsed absolutely (and is a failure if that parse fails, as for
`"http://"`); otherwise it is resolved relative to `base`. -/
def jsURL (url : String) (base : String) : Option URLRec :=
  if hasScheme url.toList then parseAbs url
  else
    match parseAbs base with
    | some b => parseRel b url.toList
    | none => none

/-- `toAbsoluteURL` from the source: with no `window` return the input; else
`new URL(url, window.location.href).href`, returning the input on a parse
failure (the `catch` branch).  `base` stands for `window.location.href`. -/
def toAbsoluteURL (windowDefined : Bool) (base : String) (url : String) : String :=
  if !windowDefined then url
  else
    match jsURL url base with
    | some u => u.href
    | none => url

/-- `href.split("#")[0]`: the part of the string before the first `#`. -/
def splitHashHead (s : String) : String :=
  String.mk (s.toList.takeWhile (fun c => c != '#'))

/-- `isHashAnchor` from the source: compare the two absolutized hrefs with
fragments stripped; any parse failure hits the `catch` and yields `false`. -/
def isHashAnchor (windowDefined : Bool) (base currentUrl newUrl : String) : Bool :=
  match parseAbs (toAbsoluteURL windowDefined base currentUrl),
        parseAbs (toAbsoluteURL windowDefined base newUrl) with
  | some current, some next => splitHashHead current.href = splitHashHead next.href
  | _, _ => false

/-- Does `s` start with the literal characters `pat` (JS
`String.prototype.startsWith`, on character lists)? -/
def startsWithAux : List Char → List Char → Bool
  | [], _ => true
  | _ :: _, [] => false
  | p :: ps, c :: cs => p == c && startsWithAux ps cs

/-- JS `newUrl.startsWith(pre)`. -/
def jsStartsWith (s pre : String) : Bool :=
  startsWithAux pre.toList s.toList

/-- `hostname.replace(/^www\./, "")`: strip one leading `www.` label. -/
def stripWww (s : String) : String :=
  match s.toList with
  | 'w' :: 'w' :: 'w' :: '.' :: rest => String.mk rest
  | _ => s

/-- `isSameHostName` from the source: compare hostnames with a leading `www.`
stripped; any parse failure hits the `catch` and yields `false`. -/
def isSameHostName (windowDefined : Bool) (base currentUrl newUrl : String) : Bool :=
  match parseAbs (toAbsoluteURL windowDefined base currentUrl),
        parseAbs (toAbsoluteURL windowDefined base newUrl) with
  | some current, some next => stripWww current.hostname = stripWww next.hostname
  | _, _ => false

/-- Remove the first occurrence of the nonempty pattern `pat`. -/
def removeFirst (pat : List Char) : List Char → List Char
  | [] => []
  | c :: cs =>
    if startsWithAux pat (c :: cs) then (c :: cs).drop pat.length
    else c :: removeFirst pat cs

/-- JS `String.prototype.replace` with a string pattern and empty replacement:
remove the first occurrence of `pat` (no-op when `pat` is empty or absent). -/
def jsReplaceFirst (s pat : String) : String :=
  if pat = "" then s else String.mk (removeFirst pat.toList s.toList)

/-- `isAnchorOfCurrentUrl` from the source: both URLs are parsed directly
(no base); same hostname, pathname and search, differing fragments, and the
hrefs with their fragments removed must coincide.  Parse failures hit the
`catch` and yield `false`. -/
def isAnchorOfCurrentUrl (currentUrl newUrl : String) : Bool :=
  match parseAbs currentUrl, parseAbs newUrl with
  | some currentUrlObj, some newUrlObj =>
    if currentUrlObj.hostname = newUrlObj.hostname &&
       currentUrlObj.pathname = newUrlObj.pathname &&
       currentUrlObj.search = newUrlObj.search then
      currentUrlObj.hash != newUrlObj.hash &&
        jsReplaceFirst currentUrlObj.href currentUrlObj.hash =
          jsReplaceFirst newUrlObj.href newUrlObj.hash
    else false
  | _, _ => false

/-- The special-scheme textual prefixes excluded by the classifier. -/
def schemeStrings : List String := ["tel:", "mailto:", "sms:", "blob:", "download:"]

/-- `shouldShowProgress` from the source, in its decision order: SSR guard,
cross-host exclusion, special-scheme exclusion, byte-identical exclusion,
hash-anchor and same-page-anchor exclusions (subject to the two options),
non-http exclusion, default accept.  The outer `catch` is unreachable here
because every helper is total. -/
def shouldShowProgress (windowDefined : Bool) (base : String)
    (showForHashAnchor showForSamePageAnchor : Bool)
    (currentUrl newUrl : String) : Bool :=
  if !windowDefined then true
  else if !isSameHostName windowDefined base currentUrl newUrl then false
  else if schemeStrings.any (fun scheme => jsStartsWith newUrl scheme) then false
  else if currentUrl = newUrl then false
  else
    let isHashNav := isHashAnchor windowDefined base currentUrl newUrl
    let isSamePageNav := isAnchorOfCurrentUrl currentUrl newUrl
    if isHashNav && !showForHashAnchor then false
    else if isSamePageNav && !showForSamePageAnchor then false
    else if !(jsStartsWith (toAbsoluteURL windowDefined base newUrl) "http") then false
    else true

/-! ### Update scheduler (`updateProgress`: debounce + requestAnimationFrame) -/

/-- The mutable cells `updateProgress` works with: `lastUpdateTime.current`,
whether a `requestAnimationFrame` callback is pending (`rafRef`), the step
registry, and the sequence of progress values committed so far (each
`setProgress(newProgress)` appends one). -/
structure UpdState where
  lastUpdateTime : ℚ
  rafPending : Bool
  steps : List NavigationStep
  committed : List JSNum
deriving DecidableEq, Repr

/-- Scheduler events: an external `markStepComplete(name)` call at time `t`,
or the browser firing the pending animation frame at time `t`. -/
inductive UpdEvent where
  | mark (t : ℚ) (name : String)
  | frame (t : ℚ)
deriving DecidableEq, Repr

/-- One scheduler step.  A `mark` mutates the registry and, when a change
occurred, runs the `updateProgress` body: return early when inside the
debounce window (`now - lastUpdateTime < debounceMs`), otherwise stamp
`lastUpdateTime` and (cancel-and-)schedule the single pending frame callback.
A `frame` event with a pending callback commits
`computeNewProgress` of the registry as it stands at fire time. -/
def updStep (debounceMs : ℚ) (s : UpdState) : UpdEvent → UpdState
  | UpdEvent.mark t name =>
    let r := markStepComplete t s.steps name
    if r.2 then
      if t - s.lastUpdateTime < debounceMs then { s with steps := r.1 }
      else { s with steps := r.1, lastUpdateTime := t, rafPending := true }
    else { s with steps := r.1 }
  | UpdEvent.frame _t =>
    if s.rafPending then
      { s with rafPending := false,
               committed := s.committed ++ [computeNewProgress s.steps] }
    else s

/-- Run a time-ordered event sequence through the scheduler. -/
def runTrace (debounceMs : ℚ) (s : UpdState) (evs : List UpdEvent) : UpdState :=
  evs.foldl (updStep debounceMs) s

/-- The `markStepComplete` calls of a trace, as `(name, time)` pairs. -/
def marksOf (evs : List UpdEvent) : List (String × ℚ) :=
  evs.filterMap fun e =>
    match e with
    | UpdEvent.mark t n => some (n, t)
    | UpdEvent.frame _ => none

/-- Apply a sequence of `(name, time)` completion calls to a registry. -/
def applyMarks (reg : List NavigationStep) (l : List (String × ℚ)) : List NavigationStep :=
  l.foldl (fun r p => (markStepComplete p.2 r p.1).1) reg

/-- An event is either a frame or a mark whose time lies in the half-open
debounce window `[t0, t0 + d)`. -/
def markWithin (t0 d : ℚ) : UpdEvent → Prop
  | UpdEvent.mark t _ => t0 ≤ t ∧ t < t0 + d
  | UpdEvent.frame _ => True

instance (t0 d : ℚ) (e : UpdEvent) : Decidable (markWithin t0 d e) :=
  match e with
  | UpdEvent.mark _ _ => inferInstanceAs (Decidable (_ ∧ _))
  | UpdEvent.frame _ => inferInstanceAs (Decidable True)

/-! ### Navigation state machine (`Sys`) -/

/-- `NavigationStatus` from the source. -/
inductive NavigationStatus where
  | idle
  | loading
  | complete
  | error
deriving DecidableEq, Repr

/-- The observable hook state plus the refs the state machine owns: the
`status`/`progress`/`duration`/`error` React cells, the step registry
(`stepsRef`), whether the navigation-timeout timer is armed (`timeoutRef`),
and `startTime`. -/
structure Sys where
  status : NavigationStatus
  progress : JSNum
  duration : ℚ
  error : Option String
  steps : List NavigationStep
  timeoutArmed : Bool
  startTime : Option ℚ
deriving DecidableEq, Repr

/-- The state of a freshly mounted tracker. -/
def initialSys : Sys :=
  { status := NavigationStatus.idle, progress := JSNum.num 0, duration := 0,
    error := none, steps := [], timeoutArmed := false, startTime := none }

/-- `reset` from the source: cancel timers and the pending frame, reinitialize
the registry from the template, restore the idle observable state, clear
`startTime`. -/
def resetOp (template : List StepTemplate) (_s : Sys) : Sys :=
  { status := NavigationStatus.idle, progress := JSNum.num 0, duration := 0,
    error := none, steps := initSteps template, timeoutArmed := false,
    startTime := none }

/-- `startNavigation` from the source, up to its deferred commits: `reset()`,
record `startTime`, set status `loading`, arm the `timeout` timer.  (The
`route_change` completion it schedules 10 ms later is a separate event.) -/
def startNavigationOp (template : List StepTemplate) (now : ℚ) (s : Sys) : Sys :=
  { resetOp template s with startTime := some now,
                            status := NavigationStatus.loading,
                            timeoutArmed := true }

/-- The body of the `timeout` timer callback armed by `startNavigation`:
set status `error` and the `"Navigation timeout"` message — nothing else;
in particular the registry is left untouched. -/
def timeoutFire (s : Sys) : Sys :=
  { s with status := NavigationStatus.error,
           error := some "Navigation timeout",
           timeoutArmed := false }

/-- A `markStepComplete` call at the session level: only the registry moves
(the resulting progress commit goes through the scheduler, modeled above). -/
def markStepOp (now : ℚ) (name : String) (s : Sys) : Sys :=
  { s with steps := (markStepComplete now s.steps name).1 }

/-- `finish` from the source, first phase (up to its deferred commit): cancel
the timeout timer, force-complete every step (`completeAll`), set progress
100 and status `complete`.  There is no status guard in the source — only the
`isUnmounted` check, which is `false` here. -/
def finishNow (now : ℚ) (s : Sys) : Sys :=
  { s with timeoutArmed := false,
           steps := completeAll now s.steps,
           progress := JSNum.num 100,
           status := NavigationStatus.complete }

/-- The delay, in milliseconds, of the deferred reset inside `finish`
(`setTimeout(..., 300)`). -/
def FINISH_RESET_DELAY_MS : ℚ := 300

/-- `finish` from the source, second phase: the callback that fires
`FINISH_RESET_DELAY_MS` later and restores the idle observable state
(status, progress, duration, error); the registry is not touched. -/
def finishAfterDelay (s : Sys) : Sys :=
  { s with status := NavigationStatus.idle, progress := JSNum.num 0,
           duration := 0, error := none }

/-- The session state reached, with `enableAutoComplete = false` and no
external `markStepComplete` calls, when the navigation timeout fires.  Per
the source's timer constants the trace is: `startNavigation` at 0, the
internal `route_change` timer at 10 ms, the `component_mount` effect timer at
16 ms (it runs whenever status is `loading`, independent of
`enableAutoComplete`), then the `timeout` callback (default 8000 ms; the
hydration/resources/fallback effect is disabled by
`enableAutoComplete = false`, so nothing else fires in between). -/
def sessionAtTimeout (template : List StepTemplate) : Sys :=
  timeoutFire
    (markStepOp 16 "component_mount"
      (markStepOp 10 "route_change"
        (startNavigationOp template 0 initialSys)))

/-! ### Derived definitions and sample states used by the theorems -/

/-- Pointwise relation: same name and weight, and completion is monotone. -/
def preservesCompletion (a b : NavigationStep) : Prop :=
  b.name = a.name ∧ b.weight = a.weight ∧ (a.completed = true → b.completed = true)

/-- The timestamp-free projection of a step; progress depends only on this. -/
def stepKey (s : NavigationStep) : String × ℚ × Bool :=
  (s.name, s.weight, s.completed)

/-- `markStepComplete` on the timestamp-free projection. -/
def markKey : List (String × ℚ × Bool) → String → List (String × ℚ × Bool)
  | [], _ => []
  | k :: rest, n =>
    if k.1 = n then
      if k.2.2 then k :: rest else (k.1, k.2.1, true) :: rest
    else k :: markKey rest n

/-- Fold projected completions over a list of names. -/
def foldMarks (ks : List (String × ℚ × Bool)) (ns : List String) : List (String × ℚ × Bool) :=
  ns.foldl markKey ks

/-- Invariant for the at-most-one-commit bound: either the scheduler has not
yet stamped inside the window (no frame pending, commit count unchanged), or
its stamp lies inside the window and commits plus the pending frame total at
most one beyond the initial count. -/
def UpdInv (lu0 : ℚ) (c0 : ℕ) (t0 d : ℚ) (s : UpdState) : Prop :=
  (s.lastUpdateTime = lu0 ∧ s.rafPending = false ∧ s.committed.length = c0) ∨
  (t0 ≤ s.lastUpdateTime ∧ s.lastUpdateTime < t0 + d ∧
    s.committed.length + (if s.rafPending then 1 else 0) ≤ c0 + 1)

/-- Initial scheduler state for the C5 scenario: fresh tracker
(`lastUpdateTime.current = 0`, no pending frame) with the default registry. -/
def c5Start : UpdState :=
  { lastUpdateTime := 0, rafPending := false,
    steps := initSteps DEFAULT_STEPS, committed := [] }

/-- C5 scenario trace: a completion at 1000 ms, the scheduled frame firing at
1016 ms, and a second completion at 1050 ms — both completions inside one
100 ms debounce window. -/
def c5Trace : List UpdEvent :=
  [UpdEvent.mark 1000 "route_change", UpdEvent.frame 1016,
   UpdEvent.mark 1050 "component_mount"]

/-- A sample mid-session state used to witness the `finish` claim: one step
already completed (nonzero timestamp), one not, an armed timeout timer and a
stale error message. -/
def sampleSys : Sys :=
  { status := NavigationStatus.idle, progress := JSNum.num 0, duration := 7,
    error := some "Navigation timeout",
    steps := [{ name := "route_change", weight := 20, completed := true, timestamp := some 5 },
              { name := "hydration", weight := 25, completed := false, timestamp := none }],
    timeoutArmed := true, startTime := some 1 }

/-! ### Helper lemmas: progress calculator -/

/-- With positive total weight the JS computation collapses to the spec's
rational formula. -/
theorem progress_eq_spec (reg : List NavigationStep) (h : 0 < totalWeight reg) :
    computeNewProgress reg = JSNum.num (specPercentage (completedWeight reg) (totalWeight reg)) := by
  have hne : totalWeight reg ≠ 0 := ne_of_gt h
  simp [computeNewProgress, jsDiv, hne, jsMul100, jsRound, jsMin100, specPercentage]

/-- With zero total and zero completed weight the JS computation is `0/0`,
i.e. NaN, and NaN propagates through round and min. -/
theorem progress_nan_of_zero (reg : List NavigationStep)
    (h0 : totalWeight reg = 0) (hc : completedWeight reg = 0) :
    computeNewProgress reg = JSNum.nan := by
  simp [computeNewProgress, jsDiv, h0, hc, jsMul100, jsRound, jsMin100]

/-! ### Helper lemmas: registry operations -/

/-- Completing a step never changes the name/weight skeleton of the registry. -/
theorem markStep_names_weights (t : ℚ) (reg : List NavigationStep) (n : String) :
    ((markStepComplete t reg n).1).map (fun s => (s.name, s.weight)) =
      reg.map (fun s => (s.name, s.weight)) := by
  induction reg with
  | nil => simp [markStepComplete]
  | cons s rest ih =>
    by_cases hs : s.name = n
    · by_cases hc : s.completed <;> simp [markStepComplete, hs, hc]
    · simp [markStepComplete, hs, ih]

/-- A member of the marked registry whose name differs from the marked name
was already a member before the call. -/
theorem markStep_mem_of_ne (t : ℚ) (reg : List NavigationStep) (n : String)
    (st : NavigationStep) (hmem : st ∈ (markStepComplete t reg n).1) (hne : st.name ≠ n) :
    st ∈ reg := by
  induction reg with
  | nil => simp [markStepComplete] at hmem
  | cons s rest ih =>
    by_cases hs : s.name = n
    · by_cases hc : s.completed
      · have he : (markStepComplete t (s :: rest) n).1 = s :: rest := by
          simp [markStepComplete, hs, hc]
        rw [he] at hmem
        exact hmem
      · have he : (markStepComplete t (s :: rest) n).1
            = { s with completed := true, timestamp := some t } :: rest := by
          simp [markStepComplete, hs, hc]
        rw [he, List.mem_cons] at hmem
        rcases hmem with h1 | h1
        · rw [h1] at hne
          exact absurd hs hne
        · exact List.mem_cons_of_mem _ h1
    · have he : (markStepComplete t (s :: rest) n).1 = s :: (markStepComplete t rest n).1 := by
        simp [markStepComplete, hs]
      rw [he, List.mem_cons] at hmem
      rcases hmem with h1 | h1
      · exact h1 ▸ List.mem_cons_self _ _
      · exact List.mem_cons_of_mem _ (ih h1)

/-- Second call with the same name is a no-op that reports no change. -/
theorem markStep_twice (t1 t2 : ℚ) (reg : List NavigationStep) (n : String) :
    markStepComplete t2 (markStepComplete t1 reg n).1 n = ((markStepComplete t1 reg n).1, false) := by
  induction reg with
  | nil => simp [markStepComplete]
  | cons s rest ih =>
    by_cases hs : s.name = n
    · by_cases hc : s.completed <;> simp [markStepComplete, hs, hc]
    · simp [markStepComplete, hs, ih]

/-- Marking a name that is absent or already completed changes nothing and
reports no change. -/
theorem markStep_noop (t : ℚ) (reg : List NavigationStep) (n : String)
    (h : ∀ s ∈ reg, s.name = n → s.completed = true) :
    markStepComplete t reg n = (reg, false) := by
  induction reg with
  | nil => simp [markStepComplete]
  | cons s rest ih =>
    by_cases hs : s.name = n
    · have hc := h s (List.mem_cons_self _ _) hs
      simp [markStepComplete, hs, hc]
    · have ih' := ih (fun x hx => h x (List.mem_cons_of_mem _ hx))
      simp [markStepComplete, hs, ih']

/-- The change flag is set exactly when the first step carrying the name
exists and is not yet completed. -/
theorem markStep_changed_iff (t : ℚ) (reg : List NavigationStep) (n : String) :
    (markStepComplete t reg n).2 = true ↔
      ∃ s, reg.find? (fun st => st.name == n) = some s ∧ s.completed = false := by
  induction reg with
  | nil => simp [markStepComplete]
  | cons s rest ih =>
    by_cases hs : s.name = n
    · by_cases hc : s.completed <;> simp [markStepComplete, List.find?, hs, hc]
    · have hb : (s.name == n) = false := by simpa using hs
      simp [markStepComplete, List.find?, hs, hb, ih]

theorem preservesCompletion_refl (reg : List NavigationStep) :
    List.Forall₂ preservesCompletion reg reg := by
  induction reg with
  | nil => exact List.Forall₂.nil
  | cons s rest ih => exact List.Forall₂.cons ⟨rfl, rfl, fun h => h⟩ ih

/-- `markStepComplete` never resets a completed flag. -/
theorem markStep_preservesCompletion (t : ℚ) (reg : List NavigationStep) (n : String) :
    List.Forall₂ preservesCompletion reg (markStepComplete t reg n).1 := by
  induction reg with
  | nil => exact List.Forall₂.nil
  | cons s rest ih =>
    by_cases hs : s.name = n
    · by_cases hc : s.completed
      · have he : (markStepComplete t (s :: rest) n).1 = s :: rest := by
          simp [markStepComplete, hs, hc]
        rw [he]
        exact preservesCompletion_refl _
      · have he : (markStepComplete t (s :: rest) n).1
            = { s with completed := true, timestamp := some t } :: rest := by
          simp [markStepComplete, hs, hc]
        rw [he]
        exact List.Forall₂.cons ⟨rfl, rfl, fun _ => rfl⟩ (preservesCompletion_refl rest)
    · have he : (markStepComplete t (s :: rest) n).1 = s :: (markStepComplete t rest n).1 := by
        simp [markStepComplete, hs]
      rw [he]
      exact List.Forall₂.cons ⟨rfl, rfl, fun h => h⟩ ih

/-- `completeAll` never resets a completed flag. -/
theorem completeAll_preservesCompletion (t : ℚ) (reg : List NavigationStep) :
    List.Forall₂ preservesCompletion reg (completeAll t reg) := by
  induction reg with
  | nil => exact List.Forall₂.nil
  | cons s rest ih => exact List.Forall₂.cons ⟨rfl, rfl, fun _ => rfl⟩ ih

/-! ### Helper lemmas: order-independence of completion (for the progress value) -/

/-- Completing a step commutes with the projection. -/
theorem markStep_key (t : ℚ) (reg : List NavigationStep) (n : String) :
    ((markStepComplete t reg n).1).map stepKey = markKey (reg.map stepKey) n := by
  induction reg with
  | nil => simp [markStepComplete, markKey]
  | cons s rest ih =>
    by_cases hs : s.name = n
    · by_cases hc : s.completed
      · have he : (markStepComplete t (s :: rest) n).1 = s :: rest := by
          simp [markStepComplete, hs, hc]
        simp [he, markKey, stepKey, hs, hc]
      · have he : (markStepComplete t (s :: rest) n).1
            = { s with completed := true, timestamp := some t } :: rest := by
          simp [markStepComplete, hs, hc]
        simp [he, markKey, stepKey, hs, hc]
    · have he : (markStepComplete t (s :: rest) n).1 = s :: (markStepComplete t rest n).1 := by
        simp [markStepComplete, hs]
      simp [he, markKey, stepKey, hs, ih]

/-- Projected completion of two names commutes. -/
theorem markKey_comm (ks : List (String × ℚ × Bool)) (n1 n2 : String) :
    markKey (markKey ks n1) n2 = markKey (markKey ks n2) n1 := by
  induction ks with
  | nil => simp [markKey]
  | cons k rest ih =>
    by_cases h1 : k.1 = n1
    · by_cases h2 : k.1 = n2
      · have hn : n1 = n2 := h1.symm.trans h2
        subst hn
        rfl
      · have hn : (n1 = n2) = False := eq_false fun he => h2 (h1.trans he)
        by_cases hc : k.2.2 <;> simp [markKey, h1, h2, hc, hn]
    · by_cases h2 : k.1 = n2
      · have hn : (n2 = n1) = False := eq_false fun he => h1 (h2.trans he)
        by_cases hc : k.2.2 <;> simp [markKey, h1, h2, hc, hn]
      · simp [markKey, h1, h2, ih]

/-- `applyMarks` commutes with the projection. -/
theorem applyMarks_key (reg : List NavigationStep) (l : List (String × ℚ)) :
    (applyMarks reg l).map stepKey = foldMarks (reg.map stepKey) (l.map Prod.fst) := by
  induction l generalizing reg with
  | nil => simp [applyMarks, foldMarks]
  | cons p rest ih =>
    simp only [applyMarks, List.foldl_cons, List.map_cons, foldMarks]
    rw [show (rest.foldl (fun r q => (markStepComplete q.2 r q.1).1)
        (markStepComplete p.2 reg p.1).1) = applyMarks (markStepComplete p.2 reg p.1).1 rest
      from rfl]
    rw [ih, markStep_key]
    rfl

/-- Folding projected completions is invariant under permutation of the names. -/
theorem foldMarks_perm {ns1 ns2 : List String} (h : ns1.Perm ns2)
    (ks : List (String × ℚ × Bool)) : foldMarks ks ns1 = foldMarks ks ns2 := by
  induction h generalizing ks with
  | nil => rfl
  | cons x _ ih => simp only [foldMarks, List.foldl_cons] at *; exact ih _
  | swap x y l =>
    simp only [foldMarks, List.foldl_cons]
    rw [markKey_comm]
  | trans _ _ ih1 ih2 => exact (ih1 ks).trans (ih2 ks)

/-- Total weight is a function of the projection. -/
theorem totalWeight_key (reg : List NavigationStep) :
    totalWeight reg = (reg.map stepKey).foldl (fun a k => a + k.2.1) 0 := by
  rw [totalWeight, List.foldl_map]
  rfl

/-- Completed weight is a function of the projection. -/
theorem completedWeight_key (reg : List NavigationStep) :
    completedWeight reg = ((reg.map stepKey).filter fun k => k.2.2).foldl
      (fun a k => a + k.2.1) 0 := by
  rw [completedWeight]
  rw [List.filter_map]
  rw [List.foldl_map]
  rfl

/-- Progress is a function of the projection. -/
theorem computeNewProgress_key {reg1 reg2 : List NavigationStep}
    (h : reg1.map stepKey = reg2.map stepKey) :
    computeNewProgress reg1 = computeNewProgress reg2 := by
  unfold computeNewProgress
  rw [totalWeight_key, completedWeight_key, h, ← totalWeight_key, ← completedWeight_key]

/-- Projected completion does not change the weight sequence. -/
theorem markKey_weights (ks : List (String × ℚ × Bool)) (n : String) :
    (markKey ks n).map (fun k => k.2.1) = ks.map fun k => k.2.1 := by
  induction ks with
  | nil => simp [markKey]
  | cons k rest ih =>
    by_cases hk : k.1 = n
    · by_cases hc : k.2.2 <;> simp [markKey, hk, hc]
    · simp [markKey, hk, ih]

/-- The projected total is a function of the weight sequence alone. -/
theorem keyTotal_eq (ks : List (String × ℚ × Bool)) :
    ks.foldl (fun a k => a + k.2.1) 0 =
      (ks.map fun k => k.2.1).foldl (fun a w => a + w) 0 := by
  simp [List.foldl_map]

/-- Total weight is unchanged by a single completion. -/
theorem totalWeight_markStep (t : ℚ) (reg : List NavigationStep) (n : String) :
    totalWeight (markStepComplete t reg n).1 = totalWeight reg := by
  rw [totalWeight_key, totalWeight_key, markStep_key, keyTotal_eq, keyTotal_eq, markKey_weights]

/-- Total weight is unchanged by any sequence of completions. -/
theorem totalWeight_applyMarks (reg : List NavigationStep) (l : List (String × ℚ)) :
    totalWeight (applyMarks reg l) = totalWeight reg := by
  induction l generalizing reg with
  | nil => rfl
  | cons p rest ih =>
    have h1 : applyMarks reg (p :: rest) = applyMarks (markStepComplete p.2 reg p.1).1 rest := rfl
    rw [h1, ih, totalWeight_markStep]

/-! ### Helper lemmas: update scheduler traces -/

/-- A `mark` event always leaves the registry as `markStepComplete` leaves it,
whatever the debounce branch does. -/
theorem updStep_mark_steps (d : ℚ) (s : UpdState) (t : ℚ) (n : String) :
    (updStep d s (UpdEvent.mark t n)).steps = (markStepComplete t s.steps n).1 := by
  by_cases hr : (markStepComplete t s.steps n).2
  · by_cases ht : t - s.lastUpdateTime < d <;> simp [updStep, hr, ht]
  · have hr' : (markStepComplete t s.steps n).2 = false := by
      simpa using hr
    simp [updStep, hr']
  -- in the unchanged case the source skips `updateProgress`, but the registry
  -- write is the identity there, so the equation still holds
  
/-- A `frame` event never touches the registry. -/
theorem updStep_frame_steps (d : ℚ) (s : UpdState) (t : ℚ) :
    (updStep d s (UpdEvent.frame t)).steps = s.steps := by
  by_cases hp : s.rafPending <;> simp [updStep, hp]

/-- The registry after a trace is exactly all its `mark` calls applied in
order: the debounce drops reports, never registry mutations. -/
theorem runTrace_steps (d : ℚ) (evs : List UpdEvent) (s : UpdState) :
    (runTrace d s evs).steps = applyMarks s.steps (marksOf evs) := by
  induction evs generalizing s with
  | nil => rfl
  | cons e rest ih =>
    have hr : runTrace d s (e :: rest) = runTrace d (updStep d s e) rest := rfl
    cases e with
    | mark t n =>
      rw [hr, ih]
      have : (updStep d s (UpdEvent.mark t n)).steps = (markStepComplete t s.steps n).1 :=
        updStep_mark_steps d s t n
      rw [this]
      rfl
    | frame t =>
      rw [hr, ih, updStep_frame_steps]
      rfl

/-- The invariant is preserved by every event whose mark time lies in the
window `[t0, t0 + d)`. -/
theorem updInv_step (lu0 : ℚ) (c0 : ℕ) (t0 d : ℚ) (h0 : lu0 + d ≤ t0)
    (s : UpdState) (e : UpdEvent) (hw : markWithin t0 d e)
    (hinv : UpdInv lu0 c0 t0 d s) : UpdInv lu0 c0 t0 d (updStep d s e) := by
  cases e with
  | mark t n =>
    obtain ⟨hw1, hw2⟩ := hw
    by_cases hr : (markStepComplete t s.steps n).2
    · rcases hinv with ⟨h1, h2, h3⟩ | ⟨h1, h2, h3⟩
      · have hge : ¬ t - s.lastUpdateTime < d := by rw [h1]; linarith
        have he : updStep d s (UpdEvent.mark t n)
            = { s with steps := (markStepComplete t s.steps n).1,
                       lastUpdateTime := t, rafPending := true } := by
          simp [updStep, hr, hge]
        rw [he]
        right
        refine ⟨hw1, hw2, ?_⟩
        simp [h3]
      · have hlt : t - s.lastUpdateTime < d := by linarith
        have he : updStep d s (UpdEvent.mark t n)
            = { s with steps := (markStepComplete t s.steps n).1 } := by
          simp [updStep, hr, hlt]
        rw [he]
        right
        exact ⟨h1, h2, h3⟩
    · have hr' : (markStepComplete t s.steps n).2 = false := by simpa using hr
      have he : updStep d s (UpdEvent.mark t n)
          = { s with steps := (markStepComplete t s.steps n).1 } := by
        simp [updStep, hr']
      rw [he]
      rcases hinv with ⟨h1, h2, h3⟩ | ⟨h1, h2, h3⟩
      · exact Or.inl ⟨h1, h2, h3⟩
      · exact Or.inr ⟨h1, h2, h3⟩
  | frame t =>
    by_cases hp : s.rafPending
    · rcases hinv with ⟨_, h2, _⟩ | ⟨h1, h2, h3⟩
      · rw [h2] at hp
        cases hp
      · have he : updStep d s (UpdEvent.frame t)
            = { s with rafPending := false,
                       committed := s.committed ++ [computeNewProgress s.steps] } := by
          simp [updStep, hp]
        rw [he]
        right
        refine ⟨h1, h2, ?_⟩
        rw [hp] at h3
        simp at h3 ⊢
        omega
    · have hp' : s.rafPending = false := by simpa using hp
      have he : updStep d s (UpdEvent.frame t) = s := by simp [updStep, hp']
      rw [he]
      exact hinv

/-- Run the invariant along a whole trace of in-window events. -/
theorem updInv_run (lu0 : ℚ) (c0 : ℕ) (t0 d : ℚ) (h0 : lu0 + d ≤ t0)
    (evs : List UpdEvent) (s : UpdState)
    (hw : ∀ e ∈ evs, markWithin t0 d e) (hinv : UpdInv lu0 c0 t0 d s) :
    UpdInv lu0 c0 t0 d (runTrace d s evs) := by
  induction evs generalizing s with
  | nil => exact hinv
  | cons e rest ih =>
    exact ih (updStep d s e)
      (fun x hx => hw x (List.mem_cons_of_mem _ hx))
      (updInv_step lu0 c0 t0 d h0 s e (hw e (List.mem_cons_self _ _)) hinv)

/-- `completeAll` pointwise: names and weights kept, everything completed, a
missing timestamp becomes `now`, an existing nonzero timestamp is kept. -/
theorem completeAll_spec (now : ℚ) (l : List NavigationStep)
    (hl : ∀ st ∈ l, st.timestamp ≠ some 0) :
    List.Forall₂ (fun a b => b.name = a.name ∧ b.weight = a.weight ∧ b.completed = true ∧
      b.timestamp = some (a.timestamp.getD now)) l (completeAll now l) := by
  induction l with
  | nil => exact List.Forall₂.nil
  | cons x rest ih =>
    refine List.Forall₂.cons ⟨rfl, rfl, rfl, ?_⟩
      (ih fun st hst => hl st (List.mem_cons_of_mem _ hst))
    cases hx : x.timestamp with
    | none => simp [jsOrTimestamp, hx]
    | some tv =>
      have hne : tv ≠ 0 := by
        have hmem := hl x (List.mem_cons_self _ _)
        rw [hx] at hmem
        exact fun he => hmem (by rw [he])
      simp [jsOrTimestamp, hx, hne]

/-! ### Claims -/

/-- Claim C1, counterexample: the division by zero is not guarded.  On the
registry produced by an empty steps template the computed progress is
`0/0 = NaN` — a non-numeric value, not the claimed 0. -/
theorem c1_counterexample :
    computeNewProgress (initSteps []) = JSNum.nan ∧ JSNum.nan ≠ JSNum.num 0 := by
  exact ⟨by decide, by decide⟩

/-- Claim C1 (amended): for every registry snapshot with positive total
weight the committed percentage is `min(round(completedWeight/totalWeight
* 100), 100)` with round-half-up rounding; but when the total weight is zero
(empty or malformed template, so the completed weight is zero too) the
computed progress is NaN — the division by zero is not guarded. -/
theorem c1_progress_formula (r1 r2 : List NavigationStep)
    (h1 : 0 < totalWeight r1) (h2 : totalWeight r2 = 0) (h3 : completedWeight r2 = 0) :
    computeNewProgress r1 = JSNum.num (specPercentage (completedWeight r1) (totalWeight r1)) ∧
    computeNewProgress r2 = JSNum.nan :=
  ⟨progress_eq_spec r1 h1, progress_nan_of_zero r2 h2 h3⟩

/-- Claim C1, witness: the amended theorem applied to the default registry
(total weight 100) and to the empty registry. -/
theorem c1_witness :
    0 < totalWeight (initSteps DEFAULT_STEPS) ∧ totalWeight [] = 0 ∧ completedWeight [] = 0 ∧
    (computeNewProgress (initSteps DEFAULT_STEPS)
        = JSNum.num (specPercentage (completedWeight (initSteps DEFAULT_STEPS))
            (totalWeight (initSteps DEFAULT_STEPS))) ∧
      computeNewProgress [] = JSNum.nan) :=
  ⟨by norm_num [totalWeight, initSteps, DEFAULT_STEPS], rfl, rfl,
    c1_progress_formula (initSteps DEFAULT_STEPS) []
      (by norm_num [totalWeight, initSteps, DEFAULT_STEPS]) rfl rfl⟩

/-- Claim C2, counterexample: on `https://a.com/x#top → https://a.com/x#bottom`
with `showForHashAnchor = true` and the other options at their defaults
(`showForSamePageAnchor = false`), the classifier returns `false`, not the
claimed `true`: the navigation is also a same-page anchor
(`isAnchorOfCurrentUrl`), and that exclusion fires next. -/
theorem c2_counterexample :
    shouldShowProgress true "https://a.com/x" true false
      "https://a.com/x#top" "https://a.com/x#bottom" = false := by
  decide

/-- Claim C2 (amended): the scenario table as the code decides it — cross-host
`false`; `tel:` target `false`; hash-anchor navigation `false` with both
anchor options at their defaults, still `false` with only
`showForHashAnchor = true` (the same-page-anchor exclusion fires), and `true`
once `showForSamePageAnchor` is enabled as well; byte-identical `false`;
same-host path change `true`. -/
theorem c2_classifier_table :
    shouldShowProgress true "https://a.com/x" false false
      "https://a.com/x" "https://b.com/y" = false ∧
    shouldShowProgress true "https://a.com/x" false false
      "https://a.com/x" "tel:12345" = false ∧
    shouldShowProgress true "https://a.com/x" false false
      "https://a.com/x#top" "https://a.com/x#bottom" = false ∧
    shouldShowProgress true "https://a.com/x" true false
      "https://a.com/x#top" "https://a.com/x#bottom" = false ∧
    shouldShowProgress true "https://a.com/x" true true
      "https://a.com/x#top" "https://a.com/x#bottom" = true ∧
    shouldShowProgress true "https://a.com/x" false false
      "https://a.com/x" "https://a.com/x" = false ∧
    shouldShowProgress true "https://a.com/x" false false
      "https://a.com/x" "https://a.com/y" = true := by
  refine ⟨by decide, by decide, by decide, by decide, by decide, by decide, by decide⟩

/-- A failed `new URL(url, base)` forces a failed base-less parse of `url`. -/
theorem parseAbsCore_none_of_not_hasScheme (cs : List Char) (h : hasScheme cs = false) :
    parseAbsCore cs = none := by
  simp only [parseAbsCore]
  cases hr : cs.dropWhile (fun c => c != ':') with
  | nil => simp [hr]
  | cons c rest => simp [hr, h]

/-- If the two-argument constructor fails then so does the one-argument one. -/
theorem parseAbs_none_of_jsURL_none {u b : String} (h : jsURL u b = none) :
    parseAbs u = none := by
  by_cases hs : hasScheme u.toList
  · unfold jsURL at h
    rw [if_pos hs] at h
    exact h
  · have hs' : hasScheme u.toList = false := by simpa using hs
    exact parseAbsCore_none_of_not_hasScheme u.toList hs'

/-- An unparseable current URL makes `isSameHostName` fail closed. -/
theorem isSameHostName_false_left (base cu nu : String)
    (h : jsURL cu base = none) : isSameHostName true base cu nu = false := by
  have habs : toAbsoluteURL true base cu = cu := by simp [toAbsoluteURL, h]
  have h1 : parseAbs (toAbsoluteURL true base cu) = none := by
    rw [habs]
    exact parseAbs_none_of_jsURL_none h
  simp [isSameHostName, h1]

/-- An unparseable target URL makes `isSameHostName` fail closed. -/
theorem isSameHostName_false_right (base cu nu : String)
    (h : jsURL nu base = none) : isSameHostName true base cu nu = false := by
  have habs : toAbsoluteURL true base nu = nu := by simp [toAbsoluteURL, h]
  have h1 : parseAbs (toAbsoluteURL true base nu) = none := by
    rw [habs]
    exact parseAbs_none_of_jsURL_none h
  cases hp : parseAbs (toAbsoluteURL true base cu) with
  | none => simp [isSameHostName, hp]
  | some u => simp [isSameHostName, hp, h1]

/-- Claim C3, counterexample: `"http://"` is unparseable (the constructor
throws even with a base), and the classifier returns `false` for it — it
fails closed, not open as claimed. -/
theorem c3_counterexample :
    jsURL "http://" "https://a.com/x" = none ∧
    shouldShowProgress true "https://a.com/x" false false
      "https://a.com/x" "http://" = false := by
  exact ⟨by decide, by decide⟩

/-- Claim C3 (amended): whenever either URL of the pair is unparseable (even
relative to the window base), `shouldShowProgress` returns `false`: the
parse failure is swallowed inside `isSameHostName`, whose `catch` returns
`false`, so the cross-host rule rejects the navigation and the fail-open
outer `catch` of `shouldShowProgress` is never reached. -/
theorem c3_fail_closed (base currentUrl newUrl : String)
    (showForHashAnchor showForSamePageAnchor : Bool)
    (h : jsURL currentUrl base = none ∨ jsURL newUrl base = none) :
    shouldShowProgress true base showForHashAnchor showForSamePageAnchor
      currentUrl newUrl = false := by
  rcases h with h | h
  · have hh := isSameHostName_false_left base currentUrl newUrl h
    simp [shouldShowProgress, hh]
  · have hh := isSameHostName_false_right base currentUrl newUrl h
    simp [shouldShowProgress, hh]

/-- Claim C3, witness: the amended theorem applied to the unparseable target
`"http://"`. -/
theorem c3_witness :
    (jsURL "https://a.com/x" "https://a.com/x" = none ∨
      jsURL "http://" "https://a.com/x" = none) ∧
    shouldShowProgress true "https://a.com/x" false false
      "https://a.com/x" "http://" = false :=
  ⟨Or.inr (by decide),
    c3_fail_closed "https://a.com/x" "https://a.com/x" "http://" false false
      (Or.inr (by decide))⟩

/-- Claim C4, counterexample: with the default template, `enableAutoComplete
= false` and no external `markStepComplete` calls, the state at the timeout
has status `error` — but the registry does not hold every step with
`completed = false`: the internal 10 ms / 16 ms timers completed
`route_change` and `component_mount` long before the timeout. -/
theorem c4_counterexample :
    (sessionAtTimeout DEFAULT_STEPS).status = NavigationStatus.error ∧
    ¬ ∀ st ∈ (sessionAtTimeout DEFAULT_STEPS).steps, st.completed = false := by
  exact ⟨rfl, by decide⟩

/-- Claim C4 (amended): a session that receives no external
`markStepComplete` calls and remains `loading` past `timeoutMs` (modeled with
`enableAutoComplete = false`, where nothing else fires) transitions to
`error` with the `"Navigation timeout"` message, and the registry is
preserved, not cleared: it keeps every step with its name and weight, and
every step other than the two completed by the built-in heuristic timers
(`route_change`, `component_mount`) still has `completed = false`. -/
theorem c4_timeout_state (template : List StepTemplate) :
    (sessionAtTimeout template).status = NavigationStatus.error ∧
    (sessionAtTimeout template).error = some "Navigation timeout" ∧
    (sessionAtTimeout template).steps.map (fun st => (st.name, st.weight))
      = template.map (fun tp => (tp.name, tp.weight)) ∧
    ∀ st ∈ (sessionAtTimeout template).steps,
      st.name ≠ "route_change" → st.name ≠ "component_mount" → st.completed = false := by
  refine ⟨rfl, rfl, ?_, ?_⟩
  · show ((markStepComplete 16 (markStepComplete 10 (initSteps template)
        "route_change").1 "component_mount").1).map (fun st => (st.name, st.weight)) = _
    rw [markStep_names_weights, markStep_names_weights]
    simp [initSteps, List.map_map]
  · intro st hmem h1 h2
    have hmem2 : st ∈ (markStepComplete 10 (initSteps template) "route_change").1 :=
      markStep_mem_of_ne 16 _ "component_mount" st hmem h2
    have hmem3 : st ∈ initSteps template :=
      markStep_mem_of_ne 10 _ "route_change" st hmem2 h1
    rcases List.mem_map.mp hmem3 with ⟨tp, _, he⟩
    rw [← he]

/-- Claim C4, witness: the amended theorem at the default template. -/
theorem c4_witness :
    (sessionAtTimeout DEFAULT_STEPS).error = some "Navigation timeout" :=
  (c4_timeout_state DEFAULT_STEPS).2.1

/-- Claim C5, counterexample: both completions fall in one debounce window
(1050 - 1000 < 100) and exactly one update is committed, but it reads 20 —
the registry percentage at frame time — while the cumulative registry stands
at 50: the completion arriving after the frame fired but inside the window
is dropped from reporting, contradicting "no completion made inside the
window is left unreported". -/
theorem c5_counterexample :
    (runTrace 100 c5Start c5Trace).committed = [JSNum.num 20] ∧
    computeNewProgress (runTrace 100 c5Start c5Trace).steps = JSNum.num 50 ∧
    (1050 : ℚ) - 1000 < 100 := by
  refine ⟨by with_unfolding_all rfl, by with_unfolding_all rfl, by norm_num⟩

/-- Claim C5 (amended): for every scheduler state with no pending frame and
every event sequence whose completions all lie in a single debounce window
`[t0, t0 + debounceMs)` starting at least a full window after the last
stamped update: at most one progress update is committed, and the registry
itself still accumulates every completion of the trace (drops affect
reporting only, never the registry). -/
theorem c5_single_commit (d t0 : ℚ) (s0 : UpdState) (evs : List UpdEvent)
    (h0 : s0.rafPending = false) (h1 : s0.lastUpdateTime + d ≤ t0)
    (hw : ∀ e ∈ evs, markWithin t0 d e) :
    (runTrace d s0 evs).committed.length ≤ s0.committed.length + 1 ∧
    (runTrace d s0 evs).steps = applyMarks s0.steps (marksOf evs) := by
  constructor
  · have hinv0 : UpdInv s0.lastUpdateTime s0.committed.length t0 d s0 :=
      Or.inl ⟨rfl, h0, rfl⟩
    have hinv := updInv_run s0.lastUpdateTime s0.committed.length t0 d h1 evs s0 hw hinv0
    rcases hinv with ⟨_, _, h3⟩ | ⟨_, _, h3⟩
    · omega
    · by_cases hp : (runTrace d s0 evs).rafPending
      · rw [if_pos hp] at h3
        omega
      · rw [if_neg hp] at h3
        omega
  · exact runTrace_steps d evs s0

/-- Claim C5, witness: the amended theorem on the C5 scenario trace. -/
theorem c5_witness :
    c5Start.rafPending = false ∧ c5Start.lastUpdateTime + 100 ≤ 1000 ∧
    (∀ e ∈ c5Trace, markWithin 1000 100 e) ∧
    (runTrace 100 c5Start c5Trace).committed.length ≤ c5Start.committed.length + 1 :=
  ⟨rfl, by norm_num [c5Start], by
      intro e he
      fin_cases he <;> constructor <;> norm_num,
    (c5_single_commit 100 1000 c5Start c5Trace rfl (by norm_num [c5Start]) (by
      intro e he
      fin_cases he <;> constructor <;> norm_num)).1⟩

/-- Claim C6: completing any multiset of step names, in any order, yields the
same reported progress, and with positive total weight that progress is the
spec formula applied to the resulting completed weight over the (unchanged)
total weight. -/
theorem c6_commutative (reg : List NavigationStep) (l1 l2 : List (String × ℚ))
    (hW : 0 < totalWeight reg) (hperm : l1.Perm l2) :
    computeNewProgress (applyMarks reg l1) = computeNewProgress (applyMarks reg l2) ∧
    computeNewProgress (applyMarks reg l1)
      = JSNum.num (specPercentage (completedWeight (applyMarks reg l1)) (totalWeight reg)) := by
  constructor
  · apply computeNewProgress_key
    rw [applyMarks_key, applyMarks_key]
    exact foldMarks_perm (hperm.map Prod.fst) _
  · have h1 : totalWeight (applyMarks reg l1) = totalWeight reg :=
      totalWeight_applyMarks reg l1
    have h2 := progress_eq_spec (applyMarks reg l1) (by rw [h1]; exact hW)
    rw [h2, h1]

/-- Claim C6, witness: two orders of the same completions on the default
registry give the same progress. -/
theorem c6_witness :
    0 < totalWeight (initSteps DEFAULT_STEPS) ∧
    [("route_change", (5 : ℚ)), ("hydration", 8)].Perm
      [("hydration", (8 : ℚ)), ("route_change", 5)] ∧
    computeNewProgress (applyMarks (initSteps DEFAULT_STEPS)
        [("route_change", (5 : ℚ)), ("hydration", 8)])
      = computeNewProgress (applyMarks (initSteps DEFAULT_STEPS)
          [("hydration", (8 : ℚ)), ("route_change", 5)]) :=
  ⟨by norm_num [totalWeight, initSteps, DEFAULT_STEPS], by decide,
    (c6_commutative (initSteps DEFAULT_STEPS) _ _
      (by norm_num [totalWeight, initSteps, DEFAULT_STEPS]) (by decide)).1⟩

/-- Claim C7: `markStepComplete` is idempotent — a second call with the same
name returns the registry of the first call unchanged (timestamps included)
and reports no change — and a call whose name is absent or already completed
is a strict no-op. -/
theorem c7_idempotent (t1 t2 t3 : ℚ) (reg : List NavigationStep) (n m : String)
    (hm : ∀ s ∈ reg, s.name = m → s.completed = true) :
    markStepComplete t2 (markStepComplete t1 reg n).1 n
      = ((markStepComplete t1 reg n).1, false) ∧
    markStepComplete t3 reg m = (reg, false) :=
  ⟨markStep_twice t1 t2 reg n, markStep_noop t3 reg m hm⟩

/-- Claim C7, witness: idempotence on `route_change` and a no-op on an
unknown name, over the default registry. -/
theorem c7_witness :
    (∀ s ∈ initSteps DEFAULT_STEPS, s.name = "unknown_step" → s.completed = true) ∧
    (markStepComplete 7 (markStepComplete 5 (initSteps DEFAULT_STEPS) "route_change").1
        "route_change"
      = ((markStepComplete 5 (initSteps DEFAULT_STEPS) "route_change").1, false) ∧
    markStepComplete 9 (initSteps DEFAULT_STEPS) "unknown_step"
      = (initSteps DEFAULT_STEPS, false)) :=
  ⟨by decide,
    c7_idempotent 5 7 9 (initSteps DEFAULT_STEPS) "route_change" "unknown_step" (by decide)⟩

/-- Claim C8, counterexample: the source `markStepComplete` has return type
`void`; a call that marks a step and a call that is a no-op return the very
same value (`undefined`), so the return value does not indicate whether a
state change occurred.  The change information exists only as the internal
guard that decides whether `updateProgress()` runs (second components). -/
theorem c8_counterexample :
    (markStepComplete 5 (initSteps DEFAULT_STEPS) "route_change").2 = true ∧
    (markStepComplete 5 (initSteps DEFAULT_STEPS) "missing_step").2 = false ∧
    markStepCompleteRet 5 (initSteps DEFAULT_STEPS) "route_change"
      = markStepCompleteRet 5 (initSteps DEFAULT_STEPS) "missing_step" := by
  exact ⟨by decide, by decide, rfl⟩

/-- Claim C8 (amended): `markStepComplete` returns no value (`void`);
internally, it triggers `updateProgress` exactly when the first step carrying
the given name exists and was not yet completed. -/
theorem c8_change_indicator (now : ℚ) (reg : List NavigationStep) (n : String) :
    markStepCompleteRet now reg n = () ∧
    ((markStepComplete now reg n).2 = true ↔
      ∃ s, reg.find? (fun st => st.name == n) = some s ∧ s.completed = false) :=
  ⟨rfl, markStep_changed_iff now reg n⟩

/-- Claim C9: no operation of the machine resets a completed flag except a
full registry reset — `markStepComplete` and `completeAll` (the registry
mutation of `finish`) only raise completion, the timeout callback leaves the
registry untouched, and the frame-commit of `updateProgress` reads but never
writes the registry. -/
theorem c9_completed_monotone (t : ℚ) (reg : List NavigationStep) (n : String)
    (s : Sys) (d : ℚ) (u : UpdState) (tf : ℚ) :
    List.Forall₂ preservesCompletion reg (markStepComplete t reg n).1 ∧
    List.Forall₂ preservesCompletion reg (completeAll t reg) ∧
    (timeoutFire s).steps = s.steps ∧
    (updStep d u (UpdEvent.frame tf)).steps = u.steps :=
  ⟨markStep_preservesCompletion t reg n, completeAll_preservesCompletion t reg, rfl,
    updStep_frame_steps d u tf⟩

/-- Claim C10: `finish` is not guarded by the current status — applied to any
state whatsoever (in particular `idle`, as the patched `history.pushState` /
`replaceState`, `popstate` and `pagehide` handlers do) it cancels the timeout
timer, completes every step while giving a fresh timestamp only to steps
lacking one, sets progress 100 and status `complete`, and its 300 ms deferred
callback then restores idle status, zero progress, zero duration and a
cleared error. -/
theorem c10_finish (s : Sys) (now : ℚ)
    (hts : ∀ st ∈ s.steps, st.timestamp ≠ some 0) :
    (finishNow now s).timeoutArmed = false ∧
    (finishNow now s).status = NavigationStatus.complete ∧
    (finishNow now s).progress = JSNum.num 100 ∧
    List.Forall₂ (fun a b => b.name = a.name ∧ b.weight = a.weight ∧ b.completed = true ∧
      b.timestamp = some (a.timestamp.getD now)) s.steps (finishNow now s).steps ∧
    FINISH_RESET_DELAY_MS = 300 ∧
    (finishAfterDelay (finishNow now s)).status = NavigationStatus.idle ∧
    (finishAfterDelay (finishNow now s)).progress = JSNum.num 0 ∧
    (finishAfterDelay (finishNow now s)).duration = 0 ∧
    (finishAfterDelay (finishNow now s)).error = none :=
  ⟨rfl, rfl, rfl, completeAll_spec now s.steps hts, rfl, rfl, rfl, rfl, rfl⟩

/-- Claim C10, witness: `finish` at 42 ms on the sample state (status
`idle`, no session in flight) yields status `complete`, and the deferred
callback restores `idle`. -/
theorem c10_witness :
    (∀ st ∈ sampleSys.steps, st.timestamp ≠ some 0) ∧
    (finishNow 42 sampleSys).status = NavigationStatus.complete ∧
    (finishAfterDelay (finishNow 42 sampleSys)).status = NavigationStatus.idle :=
  ⟨by decide, (c10_finish sampleSys 42 (by decide)).2.1,
    (c10_finish sampleSys 42 (by decide)).2.2.2.2.2.1⟩
